import Mathlib

/-!
Verification of the ten-pin bowling scorer in `bowling_game.py`.

The Python class `BowlingGame` keeps a flat list `self.rolls` of recorded
pin counts.  We embed that state as a `List Int` (Python integers are
unbounded).  `roll` validates its argument (type check, then range check)
before appending; it is embedded as a function returning the result of the
call together with the post-state, so that atomicity on failure is a
provable statement.  `score` walks exactly ten frames with a cursor; it is
embedded as a structural recursion on the remaining frame count.
-/

namespace BowlingGame

/-- A Python value that might be passed to `roll`.  The source checks
`isinstance(pins, int)`; in Python, `bool` is a subtype of `int` (with
values 0 and 1), while a `float` is rejected regardless of its numeric
value.  The rational payload of `floatV` is never inspected numerically by
`roll` (the type check fails first), so carrying an exact value loses
nothing. -/
inductive PyNum where
  | intV : Int → PyNum
  | boolV : Bool → PyNum
  | floatV : ℚ → PyNum
deriving DecidableEq

/-- Python's `isinstance(pins, int)`: true for `int` and its subtype
`bool`, false for `float`. -/
def isinstance_int : PyNum → Bool
  | .intV _ => true
  | .boolV _ => true
  | .floatV _ => false

/-- The integer value a `PyNum` denotes in arithmetic contexts
(`True == 1`, `False == 0` in Python).  `roll` never reaches this for a
`floatV`: the `isinstance` check raises first. -/
def PyNum.toInt : PyNum → Int
  | .intV n => n
  | .boolV b => if b then 1 else 0
  | .floatV _ => 0

/-- `BowlingGame.roll(pins)`: raise `ValueError("pins must be an integer")`
if the argument is not an `int`, raise
`ValueError("pins must be between 0 and 10 inclusive")` if it is out of
range, otherwise append it to `rolls`.  The second component is the
post-state of `self.rolls`. -/
def roll (rolls : List Int) (pins : PyNum) : Except String Unit × List Int :=
  if isinstance_int pins = false then
    (.error "pins must be an integer", rolls)
  else if pins.toInt < 0 ∨ 10 < pins.toInt then
    (.error "pins must be between 0 and 10 inclusive", rolls)
  else
    (.ok (), rolls ++ [pins.toInt])

/-- `BowlingGame._safe_get(i)`: `self.rolls[i] if i < len(self.rolls) else 0`. -/
def safe_get (rolls : List Int) (i : Nat) : Int :=
  if h : i < rolls.length then rolls.get ⟨i, h⟩ else 0

/-- `BowlingGame._is_strike(i)`: `i < len(self.rolls) and self.rolls[i] == 10`. -/
def is_strike (rolls : List Int) (i : Nat) : Bool :=
  if h : i < rolls.length then rolls.get ⟨i, h⟩ == 10 else false

/-- `BowlingGame._is_spare(i)`:
`(i + 1) < len(self.rolls) and (self.rolls[i] + self.rolls[i + 1] == 10)`. -/
def is_spare (rolls : List Int) (i : Nat) : Bool :=
  if h : i + 1 < rolls.length then
    rolls.get ⟨i, Nat.lt_of_succ_lt h⟩ + rolls.get ⟨i + 1, h⟩ == 10
  else false

/-- `BowlingGame._strike_bonus(i)`: the next two rolls, missing ones as 0. -/
def strike_bonus (rolls : List Int) (i : Nat) : Int :=
  safe_get rolls (i + 1) + safe_get rolls (i + 2)

/-- `BowlingGame._spare_bonus(i)`: the roll two past the cursor, or 0. -/
def spare_bonus (rolls : List Int) (i : Nat) : Int :=
  safe_get rolls (i + 2)

/-- `BowlingGame._frame_pins(i)`: the two rolls of an open frame, missing
ones as 0. -/
def frame_pins (rolls : List Int) (i : Nat) : Int :=
  safe_get rolls i + safe_get rolls (i + 1)

/-- The body of the `for _ in range(10)` loop of `BowlingGame.score`,
recursing on the number of frames still to score; the second argument is
the Python `frame_index` cursor. -/
def scoreFrom (rolls : List Int) : Nat → Nat → Int
  | 0, _ => 0
  | n + 1, i =>
    if is_strike rolls i then
      (10 + strike_bonus rolls i) + scoreFrom rolls n (i + 1)
    else if is_spare rolls i then
      (10 + spare_bonus rolls i) + scoreFrom rolls n (i + 2)
    else
      frame_pins rolls i + scoreFrom rolls n (i + 2)

/-- `BowlingGame.score()`: ten frames starting at cursor 0. -/
def score (rolls : List Int) : Int :=
  scoreFrom rolls 10 0

/-- The scoring algorithm as the specification words it, for the
refinement claim: a cursor walks the rolls; a strike is "the roll at the
cursor is 10"; a spare is "the roll at the cursor and the following roll
both exist and sum to 10"; lookahead values default to 0 when absent. -/
def scoreSpecFrom (rolls : List Int) : Nat → Nat → Int
  | 0, _ => 0
  | n + 1, c =>
    if safe_get rolls c = 10 then
      (10 + (safe_get rolls (c + 1) + safe_get rolls (c + 2))) +
        scoreSpecFrom rolls n (c + 1)
    else if c + 1 < rolls.length ∧ safe_get rolls c + safe_get rolls (c + 1) = 10 then
      (10 + safe_get rolls (c + 2)) + scoreSpecFrom rolls n (c + 2)
    else
      (safe_get rolls c + safe_get rolls (c + 1)) + scoreSpecFrom rolls n (c + 2)

/-- The specification's ten-frame total. -/
def scoreSpec (rolls : List Int) : Int :=
  scoreSpecFrom rolls 10 0

end BowlingGame

namespace BowlingGame

theorem safe_get_of_lt {rolls : List Int} {i : Nat} (h : i < rolls.length) :
    safe_get rolls i = rolls.get ⟨i, h⟩ := by
  unfold safe_get
  rw [dif_pos h]

theorem safe_get_of_length_le {rolls : List Int} {i : Nat}
    (h : rolls.length ≤ i) : safe_get rolls i = 0 := by
  unfold safe_get
  rw [dif_neg (Nat.not_lt.2 h)]

theorem safe_get_nonneg {rolls : List Int} (h : ∀ x ∈ rolls, 0 ≤ x)
    (i : Nat) : 0 ≤ safe_get rolls i := by
  unfold safe_get
  split
  · exact h _ (rolls.get_mem _ _)
  · exact le_refl 0

theorem safe_get_le_ten {rolls : List Int} (h : ∀ x ∈ rolls, x ≤ 10)
    (i : Nat) : safe_get rolls i ≤ 10 := by
  unfold safe_get
  split
  · exact h _ (rolls.get_mem _ _)
  · norm_num

theorem safe_get_append_left {l t : List Int} {i : Nat} (h : i < l.length) :
    safe_get (l ++ t) i = safe_get l i := by
  have h2 : i < (l ++ t).length := by
    rw [List.length_append]; omega
  rw [safe_get_of_lt h2, safe_get_of_lt h]
  simp [List.get_eq_getElem, List.getElem_append_left, h]

theorem safe_get_append_mono (l : List Int) {t : List Int}
    (ht : ∀ x ∈ t, 0 ≤ x) (i : Nat) : safe_get l i ≤ safe_get (l ++ t) i := by
  by_cases h : i < l.length
  · rw [safe_get_append_left h]
  · rw [safe_get_of_length_le (Nat.le_of_not_lt h)]
    by_cases h2 : i < (l ++ t).length
    · rw [safe_get_of_lt h2, List.get_eq_getElem]
      have h3 : l.length ≤ i := Nat.le_of_not_lt h
      rw [List.getElem_append_right h3]
      exact ht _ (t.getElem_mem _)
    · rw [safe_get_of_length_le (Nat.le_of_not_lt h2)]

theorem safe_get_take {l : List Int} {k j : Nat} (h : j < k) :
    safe_get (l.take k) j = safe_get l j := by
  by_cases hj : j < l.length
  · have h1 : j < (l.take k).length := by
      rw [List.length_take]; omega
    rw [safe_get_of_lt h1, safe_get_of_lt hj]
    simp [List.get_eq_getElem]
  · have h1 : (l.take k).length ≤ j := by
      rw [List.length_take]; omega
    rw [safe_get_of_length_le h1,
      safe_get_of_length_le (Nat.le_of_not_lt hj)]

theorem is_strike_eq_safe (rolls : List Int) (i : Nat) :
    is_strike rolls i = (safe_get rolls i == 10) := by
  unfold is_strike safe_get
  split
  · rfl
  · norm_num

theorem is_strike_true_iff {rolls : List Int} {i : Nat} :
    is_strike rolls i = true ↔ safe_get rolls i = 10 := by
  rw [is_strike_eq_safe]
  exact beq_iff_eq

theorem is_spare_true_iff {rolls : List Int} {i : Nat} :
    is_spare rolls i = true ↔
      i + 1 < rolls.length ∧ safe_get rolls i + safe_get rolls (i + 1) = 10 := by
  unfold is_spare
  split
  case isTrue h =>
    rw [safe_get_of_lt (Nat.lt_of_succ_lt h), safe_get_of_lt h]
    simp [h]
  case isFalse h =>
    simp [h]

theorem is_spare_true_of_sum {rolls : List Int} {i : Nat}
    (hns : is_strike rolls i = false)
    (hsum : safe_get rolls i + safe_get rolls (i + 1) = 10) :
    is_spare rolls i = true := by
  rw [is_spare_true_iff]
  refine ⟨?_, hsum⟩
  by_contra hc
  have h1 : safe_get rolls (i + 1) = 0 :=
    safe_get_of_length_le (Nat.le_of_not_lt hc)
  have h10 : safe_get rolls i = 10 := by omega
  have := is_strike_true_iff.2 h10
  rw [hns] at this
  exact Bool.noConfusion this

theorem lt_length_of_strike {rolls : List Int} {i : Nat}
    (h : is_strike rolls i = true) : i < rolls.length := by
  by_contra hc
  rw [is_strike_true_iff, safe_get_of_length_le (Nat.le_of_not_lt hc)] at h
  norm_num at h

theorem scoreFrom_succ (rolls : List Int) (n i : Nat) :
    scoreFrom rolls (n + 1) i =
      if is_strike rolls i then
        (10 + strike_bonus rolls i) + scoreFrom rolls n (i + 1)
      else if is_spare rolls i then
        (10 + spare_bonus rolls i) + scoreFrom rolls n (i + 2)
      else
        frame_pins rolls i + scoreFrom rolls n (i + 2) := rfl

theorem scoreFrom_of_length_le (rolls : List Int) :
    ∀ (n i : Nat), rolls.length ≤ i → scoreFrom rolls n i = 0 := by
  intro n
  induction n with
  | zero => intro i _; rfl
  | succ n ih =>
    intro i h
    have hs : is_strike rolls i = false := by
      unfold is_strike
      rw [dif_neg (Nat.not_lt.2 h)]
    have hp : is_spare rolls i = false := by
      unfold is_spare
      rw [dif_neg (Nat.not_lt.2 (by omega))]
    rw [scoreFrom_succ, if_neg (by rw [hs]; exact Bool.noConfusion),
      if_neg (by rw [hp]; exact Bool.noConfusion)]
    unfold frame_pins
    rw [safe_get_of_length_le h, safe_get_of_length_le (by omega),
      ih (i + 2) (by omega)]
    norm_num

theorem scoreFrom_nonneg {rolls : List Int} (h : ∀ x ∈ rolls, 0 ≤ x) :
    ∀ (n i : Nat), 0 ≤ scoreFrom rolls n i := by
  intro n
  induction n with
  | zero => intro i; exact le_refl 0
  | succ n ih =>
    intro i
    rw [scoreFrom_succ]
    split
    · unfold strike_bonus
      have h1 := safe_get_nonneg h (i + 1)
      have h2 := safe_get_nonneg h (i + 2)
      have h3 := ih (i + 1)
      linarith
    split
    · unfold spare_bonus
      have h1 := safe_get_nonneg h (i + 2)
      have h2 := ih (i + 2)
      linarith
    · unfold frame_pins
      have h1 := safe_get_nonneg h i
      have h2 := safe_get_nonneg h (i + 1)
      have h3 := ih (i + 2)
      linarith

theorem scoreFrom_le_30 {rolls : List Int} (h : ∀ x ∈ rolls, x ≤ 10) :
    ∀ (n i : Nat), scoreFrom rolls n i ≤ 30 * (n : Int) := by
  intro n
  induction n with
  | zero => intro i; norm_num [scoreFrom]
  | succ n ih =>
    intro i
    rw [scoreFrom_succ]
    have hcast : ((n + 1 : Nat) : Int) = (n : Int) + 1 := by push_cast; ring
    rw [hcast]
    split
    · unfold strike_bonus
      have h1 := safe_get_le_ten h (i + 1)
      have h2 := safe_get_le_ten h (i + 2)
      have h3 := ih (i + 1)
      linarith
    split
    · unfold spare_bonus
      have h1 := safe_get_le_ten h (i + 2)
      have h2 := ih (i + 2)
      linarith
    · unfold frame_pins
      have h1 := safe_get_le_ten h i
      have h2 := safe_get_le_ten h (i + 1)
      have h3 := ih (i + 2)
      linarith

theorem scoreSpecFrom_succ (rolls : List Int) (n c : Nat) :
    scoreSpecFrom rolls (n + 1) c =
      if safe_get rolls c = 10 then
        (10 + (safe_get rolls (c + 1) + safe_get rolls (c + 2))) +
          scoreSpecFrom rolls n (c + 1)
      else if c + 1 < rolls.length ∧ safe_get rolls c + safe_get rolls (c + 1) = 10 then
        (10 + safe_get rolls (c + 2)) + scoreSpecFrom rolls n (c + 2)
      else
        (safe_get rolls c + safe_get rolls (c + 1)) + scoreSpecFrom rolls n (c + 2) := rfl

theorem scoreFrom_eq_specFrom (rolls : List Int) :
    ∀ (n i : Nat), scoreFrom rolls n i = scoreSpecFrom rolls n i := by
  intro n
  induction n with
  | zero => intro i; rfl
  | succ n ih =>
    intro i
    rw [scoreFrom_succ, scoreSpecFrom_succ]
    by_cases hs : safe_get rolls i = 10
    · rw [if_pos (is_strike_true_iff.2 hs), if_pos hs]
      unfold strike_bonus
      rw [ih (i + 1)]
    · have hs1 : ¬ is_strike rolls i = true := fun hc => hs (is_strike_true_iff.1 hc)
      rw [if_neg hs1, if_neg hs]
      by_cases hp : i + 1 < rolls.length ∧ safe_get rolls i + safe_get rolls (i + 1) = 10
      · rw [if_pos (is_spare_true_iff.2 hp), if_pos hp]
        unfold spare_bonus
        rw [ih (i + 2)]
      · rw [if_neg (fun hc => hp (is_spare_true_iff.1 hc)), if_neg hp]
        unfold frame_pins
        rw [ih (i + 2)]

theorem scoreFrom_congr :
    ∀ (n : Nat) (r1 r2 : List Int) (i : Nat),
      (∀ j, j ≤ i + 2 * n → safe_get r1 j = safe_get r2 j) →
      scoreFrom r1 n i = scoreFrom r2 n i := by
  intro n
  induction n with
  | zero => intro r1 r2 i _; rfl
  | succ n ih =>
    intro r1 r2 i hagree
    have hi0 : safe_get r1 i = safe_get r2 i := hagree i (by omega)
    have hi1 : safe_get r1 (i + 1) = safe_get r2 (i + 1) := hagree (i + 1) (by omega)
    have hi2 : safe_get r1 (i + 2) = safe_get r2 (i + 2) := hagree (i + 2) (by omega)
    have hstrike : is_strike r1 i = is_strike r2 i := by
      rw [is_strike_eq_safe, is_strike_eq_safe, hi0]
    rw [scoreFrom_succ, scoreFrom_succ]
    by_cases hs : is_strike r1 i = true
    · rw [if_pos hs, if_pos (hstrike ▸ hs)]
      unfold strike_bonus
      rw [hi1, hi2, ih r1 r2 (i + 1) (fun j hj => hagree j (by omega))]
    · have hs2 : ¬ is_strike r2 i = true := by rw [← hstrike]; exact hs
      have hs1f : is_strike r1 i = false := Bool.eq_false_iff.mpr hs
      have hs2f : is_strike r2 i = false := Bool.eq_false_iff.mpr hs2
      rw [if_neg hs, if_neg hs2]
      by_cases hp : is_spare r1 i = true
      · have hsum := (is_spare_true_iff.1 hp).2
        have hp2 : is_spare r2 i = true :=
          is_spare_true_of_sum hs2f (by rw [← hi0, ← hi1]; exact hsum)
        rw [if_pos hp, if_pos hp2]
        unfold spare_bonus
        rw [hi2, ih r1 r2 (i + 2) (fun j hj => hagree j (by omega))]
      · have hp2 : ¬ is_spare r2 i = true := by
          intro hc
          have hsum2 := (is_spare_true_iff.1 hc).2
          exact hp (is_spare_true_of_sum hs1f (by rw [hi0, hi1]; exact hsum2))
        rw [if_neg hp, if_neg hp2]
        unfold frame_pins
        rw [hi0, hi1, ih r1 r2 (i + 2) (fun j hj => hagree j (by omega))]

theorem scoreFrom_mono (l t : List Int) (h : ∀ x ∈ l ++ t, 0 ≤ x) :
    ∀ (n i : Nat), scoreFrom l n i ≤ scoreFrom (l ++ t) n i := by
  have ht : ∀ x ∈ t, 0 ≤ x := fun x hx => h x (List.mem_append_right l hx)
  intro n
  induction n with
  | zero => intro i; exact le_refl 0
  | succ n ih =>
    intro i
    rw [scoreFrom_succ, scoreFrom_succ]
    by_cases hs : is_strike l i = true
    · have hlt : i < l.length := lt_length_of_strike hs
      have hsa : is_strike (l ++ t) i = true := by
        rw [is_strike_true_iff, safe_get_append_left hlt]
        exact is_strike_true_iff.1 hs
      rw [if_pos hs, if_pos hsa]
      unfold strike_bonus
      have b1 := safe_get_append_mono l ht (i + 1)
      have b2 := safe_get_append_mono l ht (i + 2)
      have hrec := ih (i + 1)
      linarith
    · by_cases hp : is_spare l i = true
      · obtain ⟨hlen, hsum⟩ := is_spare_true_iff.1 hp
        have hpa : is_spare (l ++ t) i = true := by
          rw [is_spare_true_iff]
          constructor
          · rw [List.length_append]; omega
          · rw [safe_get_append_left (by omega : i < l.length),
              safe_get_append_left hlen]
            exact hsum
        have hsa : ¬ is_strike (l ++ t) i = true := by
          intro hc
          apply hs
          rw [is_strike_true_iff] at hc ⊢
          rw [safe_get_append_left (by omega : i < l.length)] at hc
          exact hc
        rw [if_neg hs, if_pos hp, if_neg hsa, if_pos hpa]
        unfold spare_bonus
        have b := safe_get_append_mono l ht (i + 2)
        have hrec := ih (i + 2)
        linarith
      · rw [if_neg hs, if_neg hp]
        by_cases hlen : l.length ≤ i
        · have hz : frame_pins l i + scoreFrom l n (i + 2) = 0 := by
            unfold frame_pins
            rw [safe_get_of_length_le hlen, safe_get_of_length_le (by omega),
              scoreFrom_of_length_le l n (i + 2) (by omega)]
            norm_num
          rw [hz, ← scoreFrom_succ]
          exact scoreFrom_nonneg h (n + 1) i
        · push_neg at hlen
          have hgt : safe_get (l ++ t) i = safe_get l i := safe_get_append_left hlen
          have hsa : ¬ is_strike (l ++ t) i = true := by
            intro hc
            apply hs
            rw [is_strike_true_iff] at hc ⊢
            rw [hgt] at hc
            exact hc
          by_cases hpa : is_spare (l ++ t) i = true
          · obtain ⟨hlen2, hsum2⟩ := is_spare_true_iff.1 hpa
            have hnl : ¬ (i + 1 < l.length) := by
              intro hc
              apply hp
              rw [is_spare_true_iff]
              refine ⟨hc, ?_⟩
              rw [← safe_get_append_left hc,
                ← safe_get_append_left (Nat.lt_of_succ_lt hc)]
              exact hsum2
            rw [if_neg hsa, if_pos hpa]
            have hfp : frame_pins l i = safe_get l i := by
              unfold frame_pins
              rw [safe_get_of_length_le (show l.length ≤ i + 1 by omega), add_zero]
            have hrec0 : scoreFrom l n (i + 2) = 0 :=
              scoreFrom_of_length_le l n (i + 2) (by omega)
            rw [hfp, hrec0, add_zero]
            have h1 := safe_get_nonneg h (i + 1)
            have h2 : safe_get l i ≤ 10 := by
              rw [← hgt]; linarith
            unfold spare_bonus
            have h3 := safe_get_nonneg h (i + 2)
            have h4 := scoreFrom_nonneg h n (i + 2)
            linarith
          · rw [if_neg hsa, if_neg hpa]
            unfold frame_pins
            have b0 := safe_get_append_mono l ht i
            have b1 := safe_get_append_mono l ht (i + 1)
            have hrec := ih (i + 2)
            linarith

end BowlingGame

namespace BowlingGame

/-- C1: for every roll sequence, `score` returns exactly what the
specification's cursor algorithm prescribes: ten frames, strike when the
roll at the cursor is 10 (advance 1, bonus next two), spare when the roll
at the cursor and the following roll both exist and sum to 10 (advance 2,
bonus one), open otherwise (advance 2), missing lookahead rolls read as
0. -/
theorem score_eq_spec_algorithm (rolls : List Int) :
    score rolls = scoreSpec rolls :=
  scoreFrom_eq_specFrom rolls 10 0

/-- C2: `roll` on an integer in [0, 10] succeeds and appends exactly that
value; on an out-of-range integer or a non-integer it fails with the
validation error and leaves `rolls` unchanged (atomic failure). -/
theorem roll_valid_appends_invalid_rejected (rolls : List Int) (v : PyNum) :
    (∀ n : Int, v = PyNum.intV n → 0 ≤ n → n ≤ 10 →
      roll rolls v = (Except.ok (), rolls ++ [n])) ∧
    ((isinstance_int v = false ∨ v.toInt < 0 ∨ 10 < v.toInt) →
      ∃ msg, roll rolls v = (Except.error msg, rolls)) := by
  constructor
  · intro n hv h0 h10
    subst hv
    unfold roll
    rw [if_neg (by simp [isinstance_int]),
      if_neg (by simp only [PyNum.toInt]; omega)]
    rfl
  · intro hbad
    unfold roll
    by_cases h1 : isinstance_int v = false
    · refine ⟨"pins must be an integer", ?_⟩
      rw [if_pos h1]
    · have h2 : v.toInt < 0 ∨ 10 < v.toInt := by tauto
      refine ⟨"pins must be between 0 and 10 inclusive", ?_⟩
      rw [if_neg h1, if_pos h2]

/-- Witness for C2: a valid roll of 3 onto [2] appends, an invalid roll of
11 errors and leaves the list unchanged. -/
theorem roll_valid_appends_invalid_rejected_witness :
    roll [2] (PyNum.intV 3) = (Except.ok (), [2, 3]) ∧
    (∃ msg, roll [2] (PyNum.intV 11) = (Except.error msg, [2])) :=
  ⟨(roll_valid_appends_invalid_rejected [2] (PyNum.intV 3)).1 3 rfl
      (by norm_num) (by norm_num),
   (roll_valid_appends_invalid_rejected [2] (PyNum.intV 11)).2
      (by right; right; norm_num [PyNum.toInt])⟩

/-- C3: every element of `rolls` lies in [0, 10]: the invariant holds for
the fresh empty game and is preserved by `roll` whether it succeeds or
fails (`score` is embedded as a pure function of `rolls` and touches no
state at all). -/
theorem rolls_range_invariant (rolls : List Int) (v : PyNum)
    (h : ∀ x ∈ rolls, 0 ≤ x ∧ x ≤ 10) :
    (∀ x ∈ ([] : List Int), 0 ≤ x ∧ x ≤ 10) ∧
    (∀ x ∈ (roll rolls v).2, 0 ≤ x ∧ x ≤ 10) := by
  refine ⟨by simp, ?_⟩
  unfold roll
  by_cases h1 : isinstance_int v = false
  · rw [if_pos h1]; exact h
  · by_cases h2 : v.toInt < 0 ∨ 10 < v.toInt
    · rw [if_neg h1, if_pos h2]; exact h
    · rw [if_neg h1, if_neg h2]
      push_neg at h2
      intro x hx
      rcases List.mem_append.1 hx with hx1 | hx2
      · exact h x hx1
      · have hx3 : x = v.toInt := List.mem_singleton.1 hx2
        subst hx3
        exact ⟨h2.1, h2.2⟩

/-- Witness for C3: the invariant on [3] is preserved by rolling 10. -/
theorem rolls_range_invariant_witness :
    (∀ x ∈ ([] : List Int), 0 ≤ x ∧ x ≤ 10) ∧
    (∀ x ∈ (roll [3] (PyNum.intV 10)).2, 0 ≤ x ∧ x ≤ 10) :=
  rolls_range_invariant [3] (PyNum.intV 10) (by decide)

/-- C4: `score` never fails: it is a total function, an empty list scores
0, any lookup past the end of `rolls` yields 0 rather than an
out-of-bounds error, and non-negative rolls give a non-negative score. -/
theorem compute_score_never_fails (rolls : List Int)
    (h : ∀ x ∈ rolls, 0 ≤ x) :
    score ([] : List Int) = 0 ∧
    (∀ i : Nat, rolls.length ≤ i → safe_get rolls i = 0) ∧
    0 ≤ score rolls :=
  ⟨by decide, fun _ hi => safe_get_of_length_le hi, scoreFrom_nonneg h 10 0⟩

/-- Witness for C4 at the concrete roll list [2, 3]. -/
theorem compute_score_never_fails_witness :
    score ([] : List Int) = 0 ∧
    (∀ i : Nat, ([2, 3] : List Int).length ≤ i → safe_get [2, 3] i = 0) ∧
    0 ≤ score [2, 3] :=
  compute_score_never_fails [2, 3] (by decide)

/-- C5: for a fixed roll sequence with elements in [0, 10], extending a
prefix never decreases the computed score. -/
theorem score_monotone_under_extension (l t : List Int)
    (h : ∀ x ∈ l ++ t, 0 ≤ x ∧ x ≤ 10) :
    score l ≤ score (l ++ t) :=
  scoreFrom_mono l t (fun x hx => (h x hx).1) 10 0

/-- Witness for C5: the prefix [5, 5] scores no more than [5, 5, 3]. -/
theorem score_monotone_under_extension_witness :
    score [5, 5] ≤ score ([5, 5] ++ [3]) :=
  score_monotone_under_extension [5, 5] [3] (by decide)

/-- C6: `score` reads at most the first 21 rolls: exactly ten frames are
scored, so rolls beyond index 20 (past frame 10 and its bonus lookahead)
never contribute, and the score of any list equals the score of its first
21 elements. -/
theorem score_reads_first_21_rolls (rolls : List Int) :
    score rolls = score (rolls.take 21) :=
  scoreFrom_congr 10 rolls (rolls.take 21) 0
    (fun _ hj => (safe_get_take (by omega)).symm)

/-- C9: if every roll lies in [0, 10] then the score is at most 300, each
of the ten frames contributing at most 30. -/
theorem score_at_most_300 (rolls : List Int)
    (h : ∀ x ∈ rolls, 0 ≤ x ∧ x ≤ 10) :
    score rolls ≤ 300 := by
  have h2 := scoreFrom_le_30 (fun x hx => (h x hx).2) 10 0
  norm_num at h2
  exact h2

/-- Witness for C9 at the concrete roll list [10, 10]. -/
theorem score_at_most_300_witness : score [10, 10] ≤ 300 :=
  score_at_most_300 [10, 10] (by decide)

/-- C10: the integrality check of `roll` is on the value's type: every
float is rejected with the state unchanged, even when its numeric value is
a whole number, while a boolean (a subtype of int in Python) is accepted
and recorded as 0 or 1. -/
theorem roll_type_based_rejection (rolls : List Int) (q : ℚ) (b : Bool) :
    roll rolls (PyNum.floatV q) =
      (Except.error "pins must be an integer", rolls) ∧
    roll rolls (PyNum.boolV b) =
      (Except.ok (), rolls ++ [if b then 1 else 0]) := by
  constructor
  · rfl
  · cases b <;> rfl

/-- C7: twelve rolls of 10 pins (a perfect game) score exactly 300. -/
theorem perfect_game_scores_300 : score (List.replicate 12 10) = 300 := by
  decide

/-- C8: the mixed example game
[10, 3, 6, 5, 5, 8, 1, 10, 10, 10, 9, 0, 7, 3, 10, 10, 8] scores exactly
190. -/
theorem mixed_example_scores_190 :
    score [10, 3, 6, 5, 5, 8, 1, 10, 10, 10, 9, 0, 7, 3, 10, 10, 8] = 190 := by
  decide

end BowlingGame
